import Mathlib

/-!
Verification of the RAiD search page (`src/index.ts`): query compilation,
fan-out search over backend endpoints, result highlighting, result
projection, and the batch-download file naming.  The TypeScript source is
shallowly embedded: strings are Lean `String`/`List Char`, the network is an
explicit fetch oracle `String → Except String ApiResponse`, and the effect of
issuing requests is recorded as an explicit trace of fetched URLs.
-/

namespace RaidSearch

/-! ### Generic string helpers (JS string primitives) -/

/-- JS `s.split(sep)` for a one-character separator: `"".split` is `[""]`,
adjacent separators yield empty segments. -/
def splitChar (sep : Char) (l : List Char) : List (List Char) :=
  match l with
  | [] => [[]]
  | c :: rest =>
    match splitChar sep rest with
    | [] => [[]]
    | g :: gs => if c = sep then [] :: g :: gs else (c :: g) :: gs

/-- `pat` is an exact (case-sensitive) leading segment of `hay`. -/
def listStarts : List Char → List Char → Bool
  | [], _ => true
  | _ :: _, [] => false
  | p :: ps, h :: hs => p = h && listStarts ps hs

/-- JS `hay.includes(pat)`: `pat` occurs contiguously somewhere in `hay`. -/
def containsSub (hay pat : List Char) : Bool :=
  match hay with
  | [] => listStarts pat []
  | _ :: t => listStarts pat hay || containsSub t pat

/-- The characters `encodeURIComponent` leaves unescaped:
`A-Z a-z 0-9 - _ . ! ~ * ' ( )`. -/
def uriUnreserved (c : Char) : Bool :=
  (Char.ofNat 65 ≤ c && c ≤ Char.ofNat 90) ||
  (Char.ofNat 97 ≤ c && c ≤ Char.ofNat 122) ||
  (Char.ofNat 48 ≤ c && c ≤ Char.ofNat 57) ||
  c = '-' || c = '_' || c = '.' || c = '!' || c = '~' || c = '*' ||
  c = Char.ofNat 39 || c = '(' || c = ')'

/-- Uppercase hexadecimal digit, as used by `encodeURIComponent`. -/
def hexDigit (n : Nat) : Char :=
  if n < 10 then Char.ofNat (48 + n) else Char.ofNat (65 + (n - 10))

/-- UTF-8 bytes of a code point (JS strings are percent-encoded byte-wise
over their UTF-8 encoding). -/
def utf8Bytes (n : Nat) : List Nat :=
  if n < 128 then [n]
  else if n < 2048 then [192 + n / 64, 128 + n % 64]
  else if n < 65536 then [224 + n / 4096, 128 + n / 64 % 64, 128 + n % 64]
  else [240 + n / 262144, 128 + n / 4096 % 64, 128 + n / 64 % 64, 128 + n % 64]

/-- `%XX` escape of one byte. -/
def pctByte (b : Nat) : List Char :=
  ['%', hexDigit (b / 16), hexDigit (b % 16)]

/-- JS `encodeURIComponent` over a character list. -/
def encodeURIComponentL (s : List Char) : List Char :=
  s.flatMap fun c =>
    if uriUnreserved c then [c] else (utf8Bytes c.toNat).flatMap pctByte

/-- JS `encodeURIComponent` over `String`. -/
def encodeURIComponent (s : String) : String :=
  String.mk (encodeURIComponentL s.data)

/-- JS-falsy test for strings: only the empty string is falsy. -/
def strFalsy (s : String) : Bool := s = ""

/-- `s.trim() === ""`: the string is empty or whitespace-only ("blank"). -/
def isBlank (s : String) : Bool := s.data.all Char.isWhitespace

/-! ### Data model (`index.ts` interfaces) -/

structure NameIdentifier where
  nameIdentifier : String
  nameIdentifierScheme : Option String := none
deriving Repr, DecidableEq

structure Creator where
  name : String
  nameIdentifiers : List NameIdentifier := []
deriving Repr, DecidableEq

structure RelatedIdentifier where
  relatedIdentifier : String
  relationType : Option String := none
deriving Repr, DecidableEq

structure Contributor where
  name : String := ""
  nameIdentifiers : List NameIdentifier := []
  contributorType : Option String := none
deriving Repr, DecidableEq

structure Description where
  description : String
  descriptionType : Option String := none
deriving Repr, DecidableEq

structure Title where
  title : String
  titleType : Option String := none
deriving Repr, DecidableEq

/-- `Attributes`; optional arrays are modelled as lists, with `[]` for a
missing array — every use site (`?.` plus length/`[0]` guards) treats
`undefined` and `[]` identically. -/
structure Attributes where
  doi : String
  titles : List Title := []
  creators : List Creator := []
  relatedIdentifiers : List RelatedIdentifier := []
  contributors : List Contributor := []
  descriptions : List Description := []
deriving Repr, DecidableEq

structure Item where
  attributes : Attributes
deriving Repr, DecidableEq

structure ApiResponse where
  data : List Item
deriving Repr, DecidableEq

structure SearchCriteria where
  title : String
  description : String
  creator : String
  related : String
  organisation : String
deriving Repr, DecidableEq

/-! ### Highlight engine (`highlightText`, index.ts lines 122-128)

The source escapes the query with
`query.replace(/[.*+?^$\x7b\x7d()|[\]\\]/g, "\\$&")`, builds
`new RegExp("(" + escapedQuery + ")", "gi")` and runs a global replace with
`"<mark>$1</mark>"`.  After escaping, the pattern is a plain concatenation of
single-character literals, so the `gi` global replace is exactly a leftmost,
non-overlapping, case-insensitive literal substring replacement.  We embed
the escaping step, a parser recovering the literal character sequence a
pure-literal pattern matches, and the replacement loop.  Case-insensitivity
of the `i` flag is modelled by ASCII case folding (`Char.toLower`), which
agrees with the JS canonicalisation on ASCII text. -/

/-- The characters of the regex metacharacter class in the source's escape
step: `. * + ? ^ $ \x7b \x7d ( ) | [ ] \`. -/
def isRegexMeta (c : Char) : Bool :=
  c = '.' || c = '*' || c = '+' || c = '?' || c = '^' || c = '$' ||
  c = Char.ofNat 123 || c = Char.ofNat 125 || c = '(' || c = ')' ||
  c = '|' || c = '[' || c = ']' || c = '\\'

/-- `query.replace(/[.*+?^$\x7b\x7d()|[\]\\]/g, "\\$&")`: put a backslash in
front of every regex metacharacter. -/
def escapeRegExp (q : List Char) : List Char :=
  q.flatMap fun c => if isRegexMeta c then ['\\', c] else [c]

/-- Reads a regex pattern that is a pure sequence of literals (plain
characters and backslash-escaped metacharacters) back into the character
sequence it matches; `none` when the pattern contains a live (unescaped)
metacharacter or a dangling backslash, i.e. when it is not a pure literal. -/
def parseLiteralPattern : List Char → Option (List Char)
  | [] => some []
  | c :: rest =>
    if c = '\\' then
      match rest with
      | [] => none
      | d :: rest2 => (parseLiteralPattern rest2).map (d :: ·)
    else if isRegexMeta c then none
    else (parseLiteralPattern rest).map (c :: ·)

/-- Case-insensitive (ASCII fold) test that `q` is a leading segment of `t`. -/
def startsWithCI : List Char → List Char → Bool
  | [], _ => true
  | _ :: _, [] => false
  | q :: qs, t :: ts => (q.toLower = t.toLower) && startsWithCI qs ts

def markOpen : List Char := "<mark>".data

def markClose : List Char := "</mark>".data

/-- One pass of the global replace: at each position, if the literal pattern
matches case-insensitively, wrap the matched original characters in
`<mark>`/`</mark>` and resume after the match (leftmost, non-overlapping);
otherwise copy one character.  `fuel` (initially the text length, an upper
bound on the number of steps) makes the recursion structural. -/
def replaceGo (q : List Char) : Nat → List Char → List Char
  | _, [] => []
  | 0, t => t
  | fuel + 1, c :: rest =>
    if startsWithCI q (c :: rest) then
      markOpen ++ (c :: rest).take q.length ++ markClose ++
        replaceGo q fuel (rest.drop (q.length - 1))
    else
      c :: replaceGo q fuel rest

/-- `text.replace(regex, "<mark>$1</mark>")` for the pure-literal pattern
`q` with flags `gi`. -/
def replaceGlobalCI (q t : List Char) : List Char :=
  replaceGo q t.length t

/-- `highlightText` (index.ts lines 122-128) over character lists.  The
falsy-query guard returns the text unchanged; otherwise the escaped query is
compiled to a regex — always a pure literal, see `parseLiteralPattern` — and
globally replaced. -/
def highlightTextL (text query : List Char) : List Char :=
  if query = [] then text
  else
    match parseLiteralPattern (escapeRegExp query) with
    | some lits => replaceGlobalCI lits text
    | none => text

/-- `highlightText` over `String`. -/
def highlightText (text query : String) : String :=
  String.mk (highlightTextL text.data query.data)

/-! ### Query compiler and fan-out orchestrator
(`searchSingleApi` lines 137-191, `searchDois` lines 199-225)

Network effects are made explicit: a fetch oracle
`fetch : String → Except String ApiResponse` stands for
`fetch(url)` + `response.json()` (an `Except.error` is a rejected promise),
and each embedded operation returns, next to its result, the list of URLs it
fetched. -/

/-- The `queryParts` array built by `searchSingleApi`: one clause pushed per
JS-truthy (non-empty) field, in source order. -/
def queryParts (c : SearchCriteria) : List String :=
  let q1 : List String :=
    if ¬ strFalsy c.title then
      ["titles.title:*" ++ encodeURIComponent c.title ++ "*"] else []
  let q2 : List String :=
    if ¬ strFalsy c.description then
      q1 ++ ["descriptions.description:*" ++
        encodeURIComponent c.description ++ "*"] else q1
  let q3 : List String :=
    if ¬ strFalsy c.creator then
      q2 ++ ["creators.name:\"" ++ encodeURIComponent c.creator ++ "\""]
    else q2
  let q4 : List String :=
    if ¬ strFalsy c.related then
      q3 ++ ["relatedIdentifiers.relatedIdentifier:\"" ++
        encodeURIComponent c.related ++ "\""] else q3
  if ¬ strFalsy c.organisation then
    q4 ++ ["contributors.nameIdentifiers.nameIdentifier:\"" ++
      encodeURIComponent c.organisation ++ "\""] else q4

/-- The `queryString` of `searchSingleApi` (line 184), built when
`queryParts` is non-empty. -/
def builtQuery (c : SearchCriteria) (op : String) : Option String :=
  if queryParts c = [] then none
  else some ("(identifiers.identifier:*raid.org.au* AND (" ++
    String.intercalate (" " ++ op ++ " ") (queryParts c) ++ "))")

/-- `searchSingleApi`: for empty `queryParts` it returns the `\x7b data: [] \x7d`
sentinel without fetching; otherwise it fetches
`apiUrl?query=<queryString>&page[size]=10000` once.  Second component: the
URLs fetched. -/
def searchSingleApi (fetch : String → Except String ApiResponse)
    (apiUrl : String) (c : SearchCriteria) (op : String) :
    Except String ApiResponse × List String :=
  match builtQuery c op with
  | none => (Except.ok ⟨[]⟩, [])
  | some qs =>
    let url := apiUrl ++ "?query=" ++ qs ++ "&page[size]=10000"
    (fetch url, [url])

/-- `Object.values(searchCriteria).some((value) => value.trim() !== "")`. -/
def hasAtLeastOneQuery (c : SearchCriteria) : Bool :=
  !isBlank c.title || !isBlank c.description || !isBlank c.creator ||
    !isBlank c.related || !isBlank c.organisation

/-- The `reduce` of `searchDois` (lines 217-222): concatenate the `data`
arrays of the fulfilled outcomes, skip the rejected ones. -/
def combinedData (results : List (Except String ApiResponse)) : List Item :=
  results.foldl
    (fun acc r => match r with
      | Except.ok v => acc ++ v.data
      | Except.error _ => acc)
    []

/-- The fan-out/merge logic of `searchDois`, abstracted over the endpoint
list (the source fixes `apis` to `apiList` below).  `Promise.allSettled`
never rejects and reports outcomes in the order of its argument array, so
the settled results are the per-endpoint outcomes in endpoint-list order.
Returns the thrown error for all-blank criteria; otherwise the merged
response together with the trace of all fetched URLs. -/
def searchDoisGen (fetch : String → Except String ApiResponse)
    (apis : List String) (c : SearchCriteria) (op : String) :
    Except String ApiResponse × List String :=
  if hasAtLeastOneQuery c then
    let settled := apis.map fun api => searchSingleApi fetch api c op
    (Except.ok ⟨combinedData (settled.map Prod.fst)⟩,
      (settled.map Prod.snd).flatten)
  else
    (Except.error "At least one search criterion is required", [])

/-- The hard-coded endpoint list of `searchDois` (line 211). -/
def apiList : List String := ["https://api.datacite.org/dois"]

/-- `searchDois` (lines 199-225). -/
def searchDois (fetch : String → Except String ApiResponse)
    (c : SearchCriteria) (op : String) :
    Except String ApiResponse × List String :=
  searchDoisGen fetch apiList c op

/-! ### Result projection (`createResultElement`, lines 233-333) -/

/-- `nameId.nameIdentifier.split("/").pop() || ""`: the trailing
path segment of an identifier URL (the ROR id). -/
def rorIdOf (nameId : String) : String :=
  String.mk (((splitChar '/' nameId.data).getLast?).getD [])

/-- One `<a ...>` fragment of the organisations line: link target
`https://ror.org/<rorId>`, displayed text the (conditionally highlighted)
full identifier value. -/
def orgAnchor (q nameId : String) : String :=
  "<a href=\"https://ror.org/" ++ rorIdOf nameId ++
    "\" target=\"_blank\">" ++
    (if ¬ strFalsy q then highlightText nameId q else nameId) ++ "</a>"

/-- Inner loop body over one contributor's `nameIdentifiers`: append an
anchor plus `" & "` for every identifier that is truthy and contains
`"ror.org"`. -/
def orgFoldIds (q : String) (acc : String) (ids : List NameIdentifier) :
    String :=
  ids.foldl
    (fun a nid =>
      if strFalsy nid.nameIdentifier = false ∧
          containsSub nid.nameIdentifier.data "ror.org".data = true then
        a ++ orgAnchor q nid.nameIdentifier ++ " & "
      else a)
    acc

/-- The raw `organisationsLinks` accumulation of both nested loops of
`createResultElement` (lines 286-308), before the trailing-separator
slice. -/
def orgRaw (contributors : List Contributor) (q : String) : String :=
  contributors.foldl (fun a contrib => orgFoldIds q a contrib.nameIdentifiers) ""

/-- `organisationsLinks` (lines 285-312): the accumulated string with
`slice(0, -3)` applied when it is non-empty. -/
def organisationsLinks (contributors : List Contributor) (q : String) :
    String :=
  if orgRaw contributors q = "" then ""
  else String.mk ((orgRaw contributors q).data.take
    ((orgRaw contributors q).data.length - 3))

/-- The rendered organisations line:
`organisationsLinks || "No organisations"` (line 328). -/
def organisationsLine (contributors : List Contributor) (q : String) :
    String :=
  if organisationsLinks contributors q = "" then "No organisations"
  else organisationsLinks contributors q

/-- The rendered description (lines 314-319):
`attributes?.descriptions?.[0]?.description || "No Description"`, run
through `highlightText` when the description criterion is truthy. -/
def descriptionLine (descriptions : List Description) (q : String) :
    String :=
  let base :=
    match descriptions.head? with
    | some d => if strFalsy d.description then "No Description" else d.description
    | none => "No Description"
  if ¬ strFalsy q then highlightText base q else base

/-! ### Batch download set and file naming
(`filesToDownload` line 76, `renderResults` lines 341-368,
`downloadFiles` lines 82-114) -/

/-- The artifact URL added per rendered record (line 361). -/
def artifactUrl (doi : String) : String :=
  "https://static.prod.raid.org.au/raids/" ++ doi ++ ".download/"

/-- `Set.add`: insertion-ordered, deduplicated by full string. -/
def setAdd (s : List String) (u : String) : List String :=
  if u ∈ s then s else s ++ [u]

/-- Effect of `renderResults` on `filesToDownload`: on an empty `data` the
function returns before touching the set; otherwise it adds one artifact URL
per rendered item. -/
def renderResultsSet (s : List String) (resp : ApiResponse) : List String :=
  if resp.data = [] then s
  else resp.data.foldl (fun a it => setAdd a (artifactUrl it.attributes.doi)) s

/-- Effect of `downloadFiles` (lines 82-114) on `filesToDownload`: its body
references only its `urls` argument (the snapshot `Array.from(filesToDownload)`
taken at line 366) and contains no `add`/`delete`/`clear` on the set, so the
set is left untouched; no other statement in the program mutates the set. -/
def downloadFilesSetEffect (s : List String) : List String := s

/-- The download file name chosen by `downloadFiles` for one URL
(lines 88-99): `url.split("/").pop() || raid-<pre>-<suf>.json` where
`[pre, sufWithDot]` destructures `split("/").slice(-3)` and `suf` is
`sufWithDot.split(".")[0]`.  When the slice has fewer than two segments the
destructured `sufWithDot` is `undefined` and `sufWithDot.split` throws (the
`catch` then skips the URL): modelled as `none`. -/
def downloadName (url : String) : Option String :=
  let parts := splitChar '/' url.data
  match parts.drop (parts.length - 3) with
  | preSeg :: sufWithDot :: _ =>
    let suf := (splitChar '.' sufWithDot).headD []
    let finalSeg := (parts.getLast?).getD []
    some (String.mk
      (if finalSeg ≠ [] then finalSeg
       else "raid-".data ++ preSeg ++ "-".data ++ suf ++ ".json".data))
  | _ => none

/-! ### Claim-side definitions

These follow the wording of the spec/claims and are compared against the
definitions embedded from the source above. -/

/-- Claim side (C1, as stated): one clause per non-blank field, in the
field order of the clause table, every value percent-encoded. -/
def claimClausesBlank (c : SearchCriteria) : List String :=
  (if isBlank c.title then []
   else ["titles.title:*" ++ encodeURIComponent c.title ++ "*"]) ++
  (if isBlank c.description then []
   else ["descriptions.description:*" ++
     encodeURIComponent c.description ++ "*"]) ++
  (if isBlank c.creator then []
   else ["creators.name:\"" ++ encodeURIComponent c.creator ++ "\""]) ++
  (if isBlank c.related then []
   else ["relatedIdentifiers.relatedIdentifier:\"" ++
     encodeURIComponent c.related ++ "\""]) ++
  (if isBlank c.organisation then []
   else ["contributors.nameIdentifiers.nameIdentifier:\"" ++
     encodeURIComponent c.organisation ++ "\""])

/-- Claim side (C1, amended): one clause per non-empty (JS-truthy) field. -/
def claimClauses (c : SearchCriteria) : List String :=
  (if strFalsy c.title then []
   else ["titles.title:*" ++ encodeURIComponent c.title ++ "*"]) ++
  (if strFalsy c.description then []
   else ["descriptions.description:*" ++
     encodeURIComponent c.description ++ "*"]) ++
  (if strFalsy c.creator then []
   else ["creators.name:\"" ++ encodeURIComponent c.creator ++ "\""]) ++
  (if strFalsy c.related then []
   else ["relatedIdentifiers.relatedIdentifier:\"" ++
     encodeURIComponent c.related ++ "\""]) ++
  (if strFalsy c.organisation then []
   else ["contributors.nameIdentifiers.nameIdentifier:\"" ++
     encodeURIComponent c.organisation ++ "\""])

/-- Claim side (C1): the clauses joined by ` <operator> `, conjoined with
the fixed namespace filter using AND and wrapped in parentheses. -/
def claimWrap (clauses : List String) (op : String) : String :=
  "(identifiers.identifier:*raid.org.au* AND (" ++
    String.intercalate (" " ++ op ++ " ") clauses ++ "))"

/-- Claim side (C2): the concatenation of the successful responses' `data`
arrays, in the order the settled outcomes are reported, failures
discarded. -/
def successData (results : List (Except String ApiResponse)) : List Item :=
  (results.filterMap Except.toOption).flatMap ApiResponse.data

/-- Claim side (C4): `Highlighted q t r` — `r` is `t` with every leftmost
non-overlapping case-insensitive occurrence of `q` wrapped in
`<mark>`/`</mark>`: a kept character starts no occurrence (completeness),
a wrapped segment is the original text and case-folds to `q` (soundness and
casing preservation), everything else is unchanged. -/
inductive Highlighted (q : List Char) : List Char → List Char → Prop where
  | nil : Highlighted q [] []
  | keep {c : Char} {t r : List Char} :
      startsWithCI q (c :: t) = false → Highlighted q t r →
      Highlighted q (c :: t) (c :: r)
  | wrap {m t r : List Char} :
      m.map Char.toLower = q.map Char.toLower → Highlighted q t r →
      Highlighted q (m ++ t) (markOpen ++ m ++ markClose ++ r)

/-- Claim side (C5): the contributor name-identifier values that contain
`"ror.org"`, in traversal order. -/
def qualifyingOrgIds (contributors : List Contributor) : List String :=
  (contributors.flatMap fun ct => ct.nameIdentifiers).filterMap fun nid =>
    if containsSub nid.nameIdentifier.data "ror.org".data then
      some nid.nameIdentifier
    else none

/-- Claim side (C5): joining with `" & "`. -/
def joinAmp : List String → String
  | [] => ""
  | [x] => x
  | x :: y :: rest => x ++ " & " ++ joinAmp (y :: rest)

/-- The qualifying name-identifier values of one identifier list. -/
def qualOfIds (ids : List NameIdentifier) : List String :=
  ids.filterMap fun nid =>
    if containsSub nid.nameIdentifier.data "ror.org".data then
      some nid.nameIdentifier
    else none

/-- The `" & "` separator, as characters. -/
def sepAmp : List Char := " & ".data

/-- Concatenation of fragments each followed by `" & "` — the raw
accumulated organisations string before the trailing separator is
sliced off. -/
def catSep (l : List (List Char)) : List Char :=
  (l.map fun x => x ++ sepAmp).flatten

/-- `joinAmp` at the character level. -/
def interAmp : List (List Char) → List Char
  | [] => []
  | [x] => x
  | x :: y :: rest => x ++ sepAmp ++ interAmp (y :: rest)

/-- Criteria with a non-empty title and a whitespace-only (blank but
JS-truthy) description. -/
def cexCriteria : SearchCriteria := ⟨"a", " ", "", "", ""⟩

/-! ### Highlight engine lemmas -/

/-- Escaping makes the query a pure literal: compiling the escaped query
back yields exactly the original character sequence. -/
theorem parse_escapeRegExp (q : List Char) :
    parseLiteralPattern (escapeRegExp q) = some q := by
  induction q with
  | nil => rfl
  | cons c rest ih =>
    have hstep : escapeRegExp (c :: rest) =
        (if isRegexMeta c then ['\\', c] else [c]) ++ escapeRegExp rest := by
      simp [escapeRegExp]
    rw [hstep]
    by_cases hm : isRegexMeta c
    · rw [if_pos hm]
      simp [parseLiteralPattern, ih]
    · have hb : c ≠ '\\' := by
        rintro rfl
        simp [isRegexMeta] at hm
      rw [if_neg hm]
      show parseLiteralPattern (c :: escapeRegExp rest) = some (c :: rest)
      rw [parseLiteralPattern.eq_def]
      simp only []
      rw [if_neg hb, if_neg hm, ih]
      rfl

theorem startsWithCI_take {q : List Char} :
    ∀ {t : List Char}, startsWithCI q t = true →
    (t.take q.length).map Char.toLower = q.map Char.toLower := by
  induction q with
  | nil => intro t _; simp
  | cons p ps ih =>
    intro t h
    cases t with
    | nil => simp [startsWithCI] at h
    | cons a ts =>
      simp only [startsWithCI, Bool.and_eq_true, decide_eq_true_eq] at h
      simp [List.take_succ_cons, ih h.2, h.1]

/-- Core invariant of the global replace loop: with enough fuel, the output
is the input with every occurrence wrapped. -/
theorem replaceGo_highlighted (q : List Char) (hq : q ≠ []) :
    ∀ (fuel : Nat) (t : List Char), t.length ≤ fuel →
    Highlighted q t (replaceGo q fuel t) := by
  intro fuel
  induction fuel with
  | zero =>
    intro t ht
    have h0 : t = [] := List.eq_nil_of_length_eq_zero (Nat.le_zero.mp ht)
    subst h0
    exact Highlighted.nil
  | succ fuel ih =>
    intro t ht
    match t with
    | [] => exact Highlighted.nil
    | c :: rest =>
      by_cases hs : startsWithCI q (c :: rest) = true
      · have hred : replaceGo q (fuel + 1) (c :: rest) =
            markOpen ++ (c :: rest).take q.length ++ markClose ++
              replaceGo q fuel (rest.drop (q.length - 1)) := by
          simp [replaceGo, hs]
        rw [hred]
        have hdrop : (c :: rest).drop q.length = rest.drop (q.length - 1) := by
          cases q with
          | nil => exact absurd rfl hq
          | cons a as => simp
        have hrec : Highlighted q (rest.drop (q.length - 1))
            (replaceGo q fuel (rest.drop (q.length - 1))) := by
          refine ih _ ?_
          have : rest.length + 1 ≤ fuel + 1 := by simpa using ht
          simp only [List.length_drop]
          omega
        have hw := Highlighted.wrap (startsWithCI_take hs) hrec
        have harg : (c :: rest).take q.length ++ rest.drop (q.length - 1) =
            c :: rest := by
          rw [← hdrop, List.take_append_drop]
        rw [harg] at hw
        exact hw
      · have hs' : startsWithCI q (c :: rest) = false :=
          Bool.eq_false_iff.mpr hs
        have hred : replaceGo q (fuel + 1) (c :: rest) =
            c :: replaceGo q fuel rest := by
          simp [replaceGo, hs']
        rw [hred]
        have : rest.length + 1 ≤ fuel + 1 := by simpa using ht
        exact Highlighted.keep hs' (ih rest (by omega))

theorem highlightTextL_eq_replace (t q : List Char) (hq : q ≠ []) :
    highlightTextL t q = replaceGlobalCI q t := by
  simp [highlightTextL, hq, parse_escapeRegExp]

/-! ### Claim theorems: highlight engine -/

/-- C4: for every text and every non-blank query, `highlightText` treats
the query literally (the escaped query parses back to exactly the query's
characters), and the output is the text with every leftmost non-overlapping
case-insensitive occurrence of the query wrapped in `<mark>`/`</mark>`,
original casing of matches preserved and non-matching text unchanged
(`Highlighted`); in particular the two concrete examples of the claim
hold. -/
theorem highlightText_literal_ci (t q : String) (hq : isBlank q = false) :
    parseLiteralPattern (escapeRegExp q.data) = some q.data ∧
    Highlighted q.data t.data (highlightText t q).data ∧
    highlightText "Data Management Plan" "data" =
      "<mark>Data</mark> Management Plan" ∧
    highlightText "a.b.c" "." = "a<mark>.</mark>b<mark>.</mark>c" := by
  have hne : q.data ≠ [] := by
    intro h0
    have hb : isBlank q = true := by simp [isBlank, h0]
    rw [hb] at hq
    exact absurd hq (by decide)
  refine ⟨parse_escapeRegExp q.data, ?_, by decide, by decide⟩
  show Highlighted q.data t.data (highlightTextL t.data q.data)
  rw [highlightTextL_eq_replace _ _ hne]
  exact replaceGo_highlighted q.data hne t.data.length t.data (le_refl _)

theorem highlightText_literal_ci_witness :
    isBlank "data" = false ∧
    (parseLiteralPattern (escapeRegExp "data".data) = some "data".data ∧
     Highlighted "data".data "Data Management Plan".data
       (highlightText "Data Management Plan" "data").data ∧
     highlightText "Data Management Plan" "data" =
       "<mark>Data</mark> Management Plan" ∧
     highlightText "a.b.c" "." = "a<mark>.</mark>b<mark>.</mark>c") :=
  ⟨by decide, highlightText_literal_ci "Data Management Plan" "data" (by decide)⟩

/-- C7 counterexample: the whitespace-only query `" "` is blank, yet
`highlightText` is not the identity on it — the source only guards the
JS-falsy (empty) query, so a space query marks every space. -/
theorem highlightText_blank_not_identity :
    isBlank " " = true ∧
    highlightText "a b" " " = "a<mark> </mark>b" ∧
    highlightText "a b" " " ≠ "a b" := by decide

/-- C7 amended: for every text, if the query is empty (JS-falsy) then
`highlightText text query = text`, i.e. the highlight transform is the
identity. -/
theorem highlightText_empty_identity (t : String) :
    highlightText t "" = t := by
  cases t with
  | mk l =>
    show String.mk (highlightTextL l []) = String.mk l
    simp [highlightTextL]

/-- C10: for a record with no descriptions and a non-blank description
criterion, the rendered description line is `highlightText` applied to the
placeholder itself; with criterion `"no"` the emphasis markup lands inside
the placeholder. -/
theorem descriptionLine_highlights_placeholder (q : String)
    (h : isBlank q = false) :
    descriptionLine [] q = highlightText "No Description" q ∧
    descriptionLine [] "no" = "<mark>No</mark> Description" := by
  constructor
  · have hq : ¬ strFalsy q = true := by
      intro h0
      have he : q = "" := by simpa [strFalsy] using h0
      subst he
      exact absurd h (by decide)
    simp [descriptionLine, hq]
  · decide

theorem descriptionLine_highlights_placeholder_witness :
    isBlank "no" = false ∧
    (descriptionLine [] "no" = highlightText "No Description" "no" ∧
     descriptionLine [] "no" = "<mark>No</mark> Description") :=
  ⟨by decide, descriptionLine_highlights_placeholder "no" (by decide)⟩

/-! ### Claim theorems: query compiler and orchestrator -/

/-- C6: for every criteria producing zero query clauses, `searchSingleApi`
returns the empty-query sentinel response and issues no request. -/
theorem searchSingleApi_emptyQuery
    (fetch : String → Except String ApiResponse) (apiUrl : String)
    (c : SearchCriteria) (op : String) (h : queryParts c = []) :
    searchSingleApi fetch apiUrl c op = (Except.ok ⟨[]⟩, []) := by
  simp [searchSingleApi, builtQuery, h]

theorem searchSingleApi_emptyQuery_witness :
    queryParts ⟨"", "", "", "", ""⟩ = [] ∧
    searchSingleApi (fun _ => Except.error "down")
      "https://api.datacite.org/dois" ⟨"", "", "", "", ""⟩ "AND" =
      (Except.ok ⟨[]⟩, []) :=
  ⟨by decide, searchSingleApi_emptyQuery _ _ _ _ (by decide)⟩

/-- C3: with all five criteria fields blank, `searchDois` throws the
validation error and fetches nothing; with at least one non-blank field it
never throws the validation error (its result is a fulfilled response). -/
theorem searchDois_validates (fetch : String → Except String ApiResponse)
    (c : SearchCriteria) (op : String) :
    ((isBlank c.title ∧ isBlank c.description ∧ isBlank c.creator ∧
      isBlank c.related ∧ isBlank c.organisation) →
      searchDois fetch c op =
        (Except.error "At least one search criterion is required", [])) ∧
    ((isBlank c.title = false ∨ isBlank c.description = false ∨
      isBlank c.creator = false ∨ isBlank c.related = false ∨
      isBlank c.organisation = false) →
      ∃ r, (searchDois fetch c op).fst = Except.ok r) := by
  constructor
  · rintro ⟨h1, h2, h3, h4, h5⟩
    have h : hasAtLeastOneQuery c = false := by
      simp [hasAtLeastOneQuery, h1, h2, h3, h4, h5]
    simp [searchDois, searchDoisGen, h]
  · intro h
    have hh : hasAtLeastOneQuery c = true := by
      rcases h with h | h | h | h | h <;> simp [hasAtLeastOneQuery, h]
    refine ⟨⟨combinedData ((apiList.map fun api =>
      searchSingleApi fetch api c op).map Prod.fst)⟩, ?_⟩
    simp [searchDois, searchDoisGen, hh]

theorem searchDois_validates_witness :
    (searchDois (fun _ => Except.error "down") ⟨"", " ", "", "", ""⟩ "AND" =
      (Except.error "At least one search criterion is required", [])) ∧
    (∃ r, (searchDois (fun _ => Except.error "down")
      ⟨"a", "", "", "", ""⟩ "AND").fst = Except.ok r) :=
  ⟨(searchDois_validates _ _ _).1
     ⟨by decide, by decide, by decide, by decide, by decide⟩,
   (searchDois_validates _ _ _).2 (Or.inl (by decide))⟩

theorem combinedData_eq (results : List (Except String ApiResponse)) :
    combinedData results = successData results := by
  have H : ∀ (l : List (Except String ApiResponse)) (acc : List Item),
      l.foldl (fun acc r => match r with
        | Except.ok v => acc ++ v.data
        | Except.error _ => acc) acc = acc ++ successData l := by
    intro l
    induction l with
    | nil => intro acc; simp [successData]
    | cons r rest ih =>
      intro acc
      cases r with
      | ok v =>
        simp [List.foldl_cons, ih, successData, Except.toOption,
          List.filterMap_cons]
      | error e =>
        simp [List.foldl_cons, ih, successData, Except.toOption,
          List.filterMap_cons]
  simpa [combinedData] using H results []

theorem successData_all_error :
    ∀ l : List (Except String ApiResponse),
    (∀ r ∈ l, ∃ e, r = Except.error e) → successData l = [] := by
  intro l
  induction l with
  | nil => intro _; rfl
  | cons r rest ih =>
    intro h
    obtain ⟨e, he⟩ := h r (List.mem_cons_self r rest)
    subst he
    have hrest := ih fun x hx => h x (List.mem_cons_of_mem _ hx)
    simp [successData, Except.toOption, List.filterMap_cons] at hrest ⊢
    exact hrest

/-- C2: for every endpoint list and fetch outcome assignment (with valid
criteria, so the fan-out is reached), the merged result is fulfilled and its
`data` is exactly the concatenation of the successful outcomes' `data`
arrays in settled order, failures discarded; when every endpoint fails the
result is the empty response, not an error. -/
theorem searchDois_fanout (fetch : String → Except String ApiResponse)
    (apis : List String) (c : SearchCriteria) (op : String)
    (h : hasAtLeastOneQuery c = true) :
    (searchDoisGen fetch apis c op).fst =
      Except.ok ⟨successData (apis.map fun a =>
        (searchSingleApi fetch a c op).fst)⟩ ∧
    ((∀ a ∈ apis, ∃ e, (searchSingleApi fetch a c op).fst = Except.error e) →
      (searchDoisGen fetch apis c op).fst = Except.ok ⟨[]⟩) := by
  have h1 : (searchDoisGen fetch apis c op).fst =
      Except.ok ⟨successData (apis.map fun a =>
        (searchSingleApi fetch a c op).fst)⟩ := by
    simp only [searchDoisGen, h, if_true, combinedData_eq, List.map_map]
    rfl
  refine ⟨h1, fun hall => ?_⟩
  rw [h1]
  have hz : successData (apis.map fun a =>
      (searchSingleApi fetch a c op).fst) = [] := by
    refine successData_all_error _ fun r hr => ?_
    obtain ⟨a, ha, rfl⟩ := List.mem_map.mp hr
    exact hall a ha
  rw [hz]

theorem searchDois_fanout_witness :
    hasAtLeastOneQuery ⟨"a", "", "", "", ""⟩ = true ∧
    ((searchDoisGen (fun _ => Except.error "network down") ["e1", "e2"]
        ⟨"a", "", "", "", ""⟩ "AND").fst =
      Except.ok ⟨successData (["e1", "e2"].map fun a =>
        (searchSingleApi (fun _ => Except.error "network down") a
          ⟨"a", "", "", "", ""⟩ "AND").fst)⟩ ∧
     ((∀ a ∈ ["e1", "e2"], ∃ e,
        (searchSingleApi (fun _ => Except.error "network down") a
          ⟨"a", "", "", "", ""⟩ "AND").fst = Except.error e) →
      (searchDoisGen (fun _ => Except.error "network down") ["e1", "e2"]
        ⟨"a", "", "", "", ""⟩ "AND").fst = Except.ok ⟨[]⟩)) :=
  ⟨by decide, searchDois_fanout _ _ _ _ (by decide)⟩

theorem queryParts_eq_claimClauses (c : SearchCriteria) :
    queryParts c = claimClauses c := by
  simp only [queryParts, claimClauses]
  split_ifs <;> simp

/-- C1 counterexample: for the criteria `⟨"a", " ", "", "", ""⟩` the
description is blank (whitespace-only), yet the compiled query contains a
`descriptions.description` clause for it — the source tests JS-truthiness
(non-emptiness), not non-blankness — so the query differs from the one the
claim prescribes (one clause per non-blank field only). -/
theorem searchSingleApi_blank_clause_counterexample :
    hasAtLeastOneQuery cexCriteria = true ∧
    isBlank cexCriteria.description = true ∧
    builtQuery cexCriteria "AND" = some
      "(identifiers.identifier:*raid.org.au* AND (titles.title:*a* AND descriptions.description:*%20*))" ∧
    builtQuery cexCriteria "AND" ≠
      some (claimWrap (claimClausesBlank cexCriteria) "AND") := by
  refine ⟨by decide, by decide, by decide, by decide⟩

/-- C1 amended: for every criteria with at least one non-empty field and
every operator, the compiled query contains exactly one clause per
non-empty (JS-truthy) field and none for an empty field — in the claimed
clause shapes, values percent-encoded, joined by ` <operator> `, conjoined
with the namespace filter `identifiers.identifier:*raid.org.au*` via AND
and wrapped in parentheses — and exactly that URL is fetched. -/
theorem searchSingleApi_compiles_query
    (fetch : String → Except String ApiResponse) (apiUrl : String)
    (c : SearchCriteria) (op : String) (h : queryParts c ≠ []) :
    queryParts c = claimClauses c ∧
    builtQuery c op = some (claimWrap (claimClauses c) op) ∧
    searchSingleApi fetch apiUrl c op =
      (fetch (apiUrl ++ "?query=" ++ claimWrap (claimClauses c) op ++
        "&page[size]=10000"),
       [apiUrl ++ "?query=" ++ claimWrap (claimClauses c) op ++
        "&page[size]=10000"]) := by
  have he := queryParts_eq_claimClauses c
  have hb : builtQuery c op = some (claimWrap (claimClauses c) op) := by
    simp [builtQuery, h, he, claimWrap, he ▸ h]
  refine ⟨he, hb, ?_⟩
  simp [searchSingleApi, hb]

theorem searchSingleApi_compiles_query_witness :
    queryParts cexCriteria ≠ [] ∧
    (queryParts cexCriteria = claimClauses cexCriteria ∧
     builtQuery cexCriteria "AND" =
       some (claimWrap (claimClauses cexCriteria) "AND") ∧
     searchSingleApi (fun _ => Except.ok ⟨[]⟩)
       "https://api.datacite.org/dois" cexCriteria "AND" =
       ((fun _ => Except.ok (⟨[]⟩ : ApiResponse))
          ("https://api.datacite.org/dois" ++ "?query=" ++
            claimWrap (claimClauses cexCriteria) "AND" ++ "&page[size]=10000"),
        ["https://api.datacite.org/dois" ++ "?query=" ++
          claimWrap (claimClauses cexCriteria) "AND" ++ "&page[size]=10000"])) :=
  ⟨by decide, searchSingleApi_compiles_query _ _ _ _ (by decide)⟩

/-! ### Result projection lemmas (organisations line) -/

theorem catSep_cons (x : List Char) (l : List (List Char)) :
    catSep (x :: l) = (x ++ sepAmp) ++ catSep l := by
  simp [catSep]

theorem catSep_append (a b : List (List Char)) :
    catSep (a ++ b) = catSep a ++ catSep b := by
  simp [catSep]

theorem joinAmp_data (l : List String) :
    (joinAmp l).data = interAmp (l.map String.data) := by
  match l with
  | [] => rfl
  | [x] => rfl
  | x :: y :: rest =>
    have ih := joinAmp_data (y :: rest)
    simp [joinAmp, interAmp, ih, sepAmp]

theorem catSep_take :
    ∀ l : List (List Char), l ≠ [] →
    (catSep l).take ((catSep l).length - 3) = interAmp l := by
  intro l hl
  match l with
  | [x] =>
    have h1 : catSep [x] = x ++ sepAmp := by simp [catSep]
    have hsep : sepAmp.length = 3 := rfl
    rw [h1]
    have h2 : (x ++ sepAmp).length - 3 = x.length := by
      rw [List.length_append, hsep]
      omega
    rw [h2]
    show (x ++ sepAmp).take x.length = interAmp [x]
    rw [List.take_left]
    rfl
  | x :: y :: rest =>
    have ih := catSep_take (y :: rest) (by simp)
    have h1 : catSep (x :: y :: rest) = (x ++ sepAmp) ++ catSep (y :: rest) :=
      catSep_cons _ _
    have hsep : sepAmp.length = 3 := rfl
    have hlen : 3 ≤ (catSep (y :: rest)).length := by
      rw [catSep_cons, List.length_append, List.length_append, hsep]
      omega
    rw [h1]
    have h2 : ((x ++ sepAmp) ++ catSep (y :: rest)).length - 3 =
        (x ++ sepAmp).length + ((catSep (y :: rest)).length - 3) := by
      simp only [List.length_append]
      omega
    rw [h2, List.take_append_eq_append_take,
      List.take_of_length_le (by omega),
      Nat.add_sub_cancel_left, ih]
    show interAmp (x :: y :: rest) = _
    simp [interAmp]

theorem contains_ror_nonempty {s : String}
    (h : containsSub s.data "ror.org".data = true) : strFalsy s = false := by
  by_cases hs : s = ""
  · subst hs
    exact absurd h (by decide)
  · simp [strFalsy, hs]

theorem orgFold_inner (q : String) :
    ∀ (ids : List NameIdentifier) (acc : String),
    (orgFoldIds q acc ids).data =
      acc.data ++ catSep ((qualOfIds ids).map fun s => (orgAnchor q s).data) := by
  intro ids
  induction ids with
  | nil => intro acc; simp [orgFoldIds, qualOfIds, catSep]
  | cons nid rest ih =>
    intro acc
    by_cases hc : containsSub nid.nameIdentifier.data "ror.org".data = true
    · have hf := contains_ror_nonempty hc
      have hq : qualOfIds (nid :: rest) =
          nid.nameIdentifier :: qualOfIds rest := by
        simp [qualOfIds, List.filterMap_cons, hc]
      have hstep : orgFoldIds q acc (nid :: rest) =
          orgFoldIds q (acc ++ orgAnchor q nid.nameIdentifier ++ " & ") rest := by
        simp [orgFoldIds, List.foldl_cons, hf, hc]
      rw [hstep, ih, hq, List.map_cons, catSep_cons]
      simp [sepAmp]
    · have hc' : containsSub nid.nameIdentifier.data "ror.org".data = false :=
        Bool.eq_false_iff.mpr hc
      have hq : qualOfIds (nid :: rest) = qualOfIds rest := by
        simp [qualOfIds, List.filterMap_cons, hc']
      have hstep : orgFoldIds q acc (nid :: rest) = orgFoldIds q acc rest := by
        simp [orgFoldIds, List.foldl_cons, hc']
      rw [hstep, ih, hq]

theorem qualifying_cons (ct : Contributor) (rest : List Contributor) :
    qualifyingOrgIds (ct :: rest) =
      qualOfIds ct.nameIdentifiers ++ qualifyingOrgIds rest := by
  simp [qualifyingOrgIds, qualOfIds, List.flatMap_cons, List.filterMap_append]

theorem orgFold_outer (q : String) :
    ∀ (cs : List Contributor) (acc : String),
    (cs.foldl (fun a ct => orgFoldIds q a ct.nameIdentifiers) acc).data =
      acc.data ++
        catSep ((qualifyingOrgIds cs).map fun s => (orgAnchor q s).data) := by
  intro cs
  induction cs with
  | nil => intro acc; simp [qualifyingOrgIds, catSep]
  | cons ct rest ih =>
    intro acc
    rw [List.foldl_cons, ih, orgFold_inner, qualifying_cons]
    simp [catSep_append]

theorem orgAnchor_ne_empty (q s : String) : orgAnchor q s ≠ "" := by
  intro h
  have hl := congrArg String.length h
  have h25 : ("<a href=\"https://ror.org/" : String).length = 25 := rfl
  have h0 : ("" : String).length = 0 := rfl
  simp only [orgAnchor, String.length_append, h25, h0] at hl
  omega

theorem joinAmp_ne_empty :
    ∀ l : List String, l ≠ [] → (∀ x ∈ l, x ≠ "") → joinAmp l ≠ "" := by
  intro l hl hx
  match l with
  | [x] =>
    simpa [joinAmp] using hx x (by simp)
  | x :: y :: rest =>
    intro h
    have hlen := congrArg String.length h
    have h3 : (" & " : String).length = 3 := rfl
    have h0 : ("" : String).length = 0 := rfl
    simp only [joinAmp, String.length_append, h3, h0] at hlen
    omega

theorem string_ext {a b : String} (h : a.data = b.data) : a = b :=
  String.ext h

theorem organisationsLinks_eq (contributors : List Contributor) (q : String) :
    organisationsLinks contributors q =
      (if qualifyingOrgIds contributors = [] then ""
       else joinAmp ((qualifyingOrgIds contributors).map (orgAnchor q))) := by
  have hfold : (orgRaw contributors q).data =
      catSep ((qualifyingOrgIds contributors).map fun s =>
        (orgAnchor q s).data) := by
    have h := orgFold_outer q contributors ""
    simpa [orgRaw] using h
  by_cases hnil : qualifyingOrgIds contributors = []
  · have hS0 : orgRaw contributors q = "" := by
      apply string_ext
      rw [hfold, hnil]
      rfl
    rw [if_pos hnil]
    unfold organisationsLinks
    rw [if_pos hS0]
  · have hfrne : ((qualifyingOrgIds contributors).map fun s =>
        (orgAnchor q s).data) ≠ [] := by
      simpa using hnil
    have hcatne : (orgRaw contributors q).data ≠ [] := by
      rw [hfold]
      obtain ⟨f, fr, hf⟩ : ∃ f fr,
          ((qualifyingOrgIds contributors).map fun s =>
            (orgAnchor q s).data) = f :: fr := by
        cases hx : (qualifyingOrgIds contributors).map fun s =>
          (orgAnchor q s).data
        · exact absurd hx hfrne
        · exact ⟨_, _, rfl⟩
      rw [hf, catSep_cons]
      intro hemp
      have hlen := congrArg List.length hemp
      have h3 : sepAmp.length = 3 := rfl
      simp only [List.length_append, h3, List.length_nil] at hlen
      omega
    have hSne : orgRaw contributors q ≠ "" := by
      intro h
      apply hcatne
      rw [h]
    rw [if_neg hnil]
    unfold organisationsLinks
    rw [if_neg hSne]
    apply string_ext
    show (orgRaw contributors q).data.take
        ((orgRaw contributors q).data.length - 3) =
      (joinAmp ((qualifyingOrgIds contributors).map (orgAnchor q))).data
    rw [hfold, catSep_take _ hfrne, joinAmp_data, List.map_map]
    rfl

/-- C5: for every contributor list and organisation criterion, the
organisations line keeps exactly the name-identifiers containing
`"ror.org"`; each is rendered as a link to `https://ror.org/<trailing path
segment>` whose displayed (highlighted) text is the full original
identifier value; multiple entries are joined with `" & "`, and the
placeholder is rendered when none qualify.  The concrete conjuncts check
the spec's orcid/ror example and the trailing-segment extraction. -/
theorem organisations_projection (contributors : List Contributor)
    (q : String) :
    organisationsLine contributors q =
      (if qualifyingOrgIds contributors = [] then "No organisations"
       else joinAmp ((qualifyingOrgIds contributors).map (orgAnchor q))) ∧
    rorIdOf "https://ror.org/0123abcd" = "0123abcd" ∧
    orgAnchor "" "https://ror.org/0123abcd" =
      "<a href=\"https://ror.org/0123abcd\" target=\"_blank\">https://ror.org/0123abcd</a>" ∧
    organisationsLine
      [⟨"c", [⟨"https://orcid.org/0000-0001", none⟩,
              ⟨"https://ror.org/0123abcd", none⟩], none⟩] "" =
      "<a href=\"https://ror.org/0123abcd\" target=\"_blank\">https://ror.org/0123abcd</a>" := by
  refine ⟨?_, by decide, by decide, by decide⟩
  unfold organisationsLine
  rw [organisationsLinks_eq]
  by_cases hnil : qualifyingOrgIds contributors = []
  · simp [hnil]
  · have hne : joinAmp ((qualifyingOrgIds contributors).map (orgAnchor q)) ≠
        "" := by
      refine joinAmp_ne_empty _ (by simpa using hnil) ?_
      intro x hx
      obtain ⟨s, _, rfl⟩ := List.mem_map.mp hx
      exact orgAnchor_ne_empty q s
    simp [hnil, hne]

/-! ### Batch download lemmas and claims -/

theorem exists_cons_cons {α : Type} :
    ∀ l : List α, 2 ≤ l.length → ∃ a b t, l = a :: b :: t
  | [], h => by simp at h
  | [a], h => by simp at h
  | a :: b :: t, _ => ⟨a, b, t, rfl⟩

/-- C8: for every URL whose slash-split has at least two segments (every
URL the program feeds to the batch download has this form), the chosen
download name is the URL's final path segment when non-empty, and otherwise
`raid-<first of the last three segments>-<second of the last three
segments, truncated at its first dot>.json`. -/
theorem downloadName_rule (url : String)
    (h : 2 ≤ (splitChar '/' url.data).length) :
    downloadName url = some (String.mk
      (if ((splitChar '/' url.data).getLast?).getD [] ≠ [] then
        ((splitChar '/' url.data).getLast?).getD []
      else
        "raid-".data ++
        ((splitChar '/' url.data).drop
          ((splitChar '/' url.data).length - 3)).headD [] ++
        "-".data ++
        (splitChar '.'
          ((((splitChar '/' url.data).drop
            ((splitChar '/' url.data).length - 3)).drop 1).headD [])).headD []
        ++ ".json".data)) ∧
    downloadName
      "https://static.prod.raid.org.au/raids/10.1234/abc.download/" =
      some "raid-10.1234-abc.json" := by
  refine ⟨?_, by decide⟩
  obtain ⟨a, b, t, hd⟩ := exists_cons_cons
    ((splitChar '/' url.data).drop ((splitChar '/' url.data).length - 3))
    (by rw [List.length_drop]; omega)
  simp [downloadName, hd]

theorem downloadName_rule_witness :
    2 ≤ (splitChar '/' "a/b.c/".data).length ∧
    (downloadName "a/b.c/" = some (String.mk
      (if ((splitChar '/' "a/b.c/".data).getLast?).getD [] ≠ [] then
        ((splitChar '/' "a/b.c/".data).getLast?).getD []
      else
        "raid-".data ++
        ((splitChar '/' "a/b.c/".data).drop
          ((splitChar '/' "a/b.c/".data).length - 3)).headD [] ++
        "-".data ++
        (splitChar '.'
          ((((splitChar '/' "a/b.c/".data).drop
            ((splitChar '/' "a/b.c/".data).length - 3)).drop 1).headD [])).headD []
        ++ ".json".data)) ∧
     downloadName
       "https://static.prod.raid.org.au/raids/10.1234/abc.download/" =
       some "raid-10.1234-abc.json") :=
  ⟨by decide, downloadName_rule "a/b.c/" (by decide)⟩

theorem setAdd_subset (s : List String) (u : String) : s ⊆ setAdd s u := by
  intro x hx
  unfold setAdd
  split_ifs with h
  · exact hx
  · exact List.mem_append_left _ hx

theorem mem_setAdd {s : List String} {u v : String} (h : v ∈ setAdd s u) :
    v ∈ s ∨ v = u := by
  unfold setAdd at h
  split_ifs at h with hu
  · exact Or.inl h
  · rcases List.mem_append.mp h with h | h
    · exact Or.inl h
    · exact Or.inr (by simpa using h)

theorem nodup_setAdd {s : List String} (hs : s.Nodup) (u : String) :
    (setAdd s u).Nodup := by
  unfold setAdd
  split_ifs with hu
  · exact hs
  · simp [List.nodup_append, hs, hu]

theorem foldl_setAdd_subset : ∀ (l : List Item) (acc : List String),
    acc ⊆ l.foldl (fun a it => setAdd a (artifactUrl it.attributes.doi)) acc := by
  intro l
  induction l with
  | nil => intro acc x hx; exact hx
  | cons it rest ih =>
    intro acc x hx
    exact ih _ (setAdd_subset _ _ hx)

theorem mem_foldl_setAdd : ∀ (l : List Item) (acc : List String) (u : String),
    u ∈ l.foldl (fun a it => setAdd a (artifactUrl it.attributes.doi)) acc →
    u ∈ acc ∨ ∃ it ∈ l, u = artifactUrl it.attributes.doi := by
  intro l
  induction l with
  | nil => intro acc u h; exact Or.inl h
  | cons it rest ih =>
    intro acc u h
    rw [List.foldl_cons] at h
    rcases ih _ u h with h' | ⟨it', hit', rfl⟩
    · rcases mem_setAdd h' with h'' | rfl
      · exact Or.inl h''
      · exact Or.inr ⟨it, by simp, rfl⟩
    · exact Or.inr ⟨it', by simp [hit'], rfl⟩

theorem nodup_foldl_setAdd : ∀ (l : List Item) (acc : List String),
    acc.Nodup →
    (l.foldl (fun a it => setAdd a (artifactUrl it.attributes.doi)) acc).Nodup := by
  intro l
  induction l with
  | nil => intro acc h; exact h
  | cons it rest ih =>
    intro acc h
    rw [List.foldl_cons]
    exact ih _ (nodup_setAdd h _)

/-- C9: one render pass only grows the session set `filesToDownload` — the
old set is contained in the new one, every added element is the artifact
URL of a rendered record, deduplication by full URL string is preserved —
and `downloadFiles` leaves the set untouched; no operation removes
elements, so the set accumulates across searches. -/
theorem filesToDownload_monotone (s : List String) (resp : ApiResponse)
    (hs : s.Nodup) :
    s ⊆ renderResultsSet s resp ∧
    (∀ u ∈ renderResultsSet s resp,
      u ∈ s ∨ ∃ it ∈ resp.data, u = artifactUrl it.attributes.doi) ∧
    (renderResultsSet s resp).Nodup ∧
    downloadFilesSetEffect (renderResultsSet s resp) =
      renderResultsSet s resp := by
  unfold renderResultsSet
  split_ifs with hd
  · exact ⟨fun x hx => hx, fun u hu => Or.inl hu, hs, rfl⟩
  · exact ⟨foldl_setAdd_subset _ _, fun u hu => mem_foldl_setAdd _ _ _ hu,
      nodup_foldl_setAdd _ _ hs, rfl⟩

theorem filesToDownload_monotone_witness :
    (["x"] : List String).Nodup ∧
    (["x"] ⊆ renderResultsSet ["x"] ⟨[⟨⟨"10.1/abc", [], [], [], [], []⟩⟩]⟩ ∧
     (∀ u ∈ renderResultsSet ["x"] ⟨[⟨⟨"10.1/abc", [], [], [], [], []⟩⟩]⟩,
       u ∈ (["x"] : List String) ∨
       ∃ it ∈ (⟨[⟨⟨"10.1/abc", [], [], [], [], []⟩⟩]⟩ : ApiResponse).data,
         u = artifactUrl it.attributes.doi) ∧
     (renderResultsSet ["x"] ⟨[⟨⟨"10.1/abc", [], [], [], [], []⟩⟩]⟩).Nodup ∧
     downloadFilesSetEffect
       (renderResultsSet ["x"] ⟨[⟨⟨"10.1/abc", [], [], [], [], []⟩⟩]⟩) =
       renderResultsSet ["x"] ⟨[⟨⟨"10.1/abc", [], [], [], [], []⟩⟩]⟩) :=
  ⟨by decide, filesToDownload_monotone _ _ (by decide)⟩

end RaidSearch
